import Mathlib

/-!
Verification development for the SecondMe memory pipeline
(server/extraction.py, server/database.py, server/memory.py, server/main.py).

The Python source is shallowly embedded: SQLite tables become lists of
records, ChromaDB collections become lists of hit records, timestamps
become integers (ISO-8601 strings compare consistently with time for a
single clock, so a linearly ordered `Int` is a faithful ordering key),
and the external chat / embedding capabilities become oracles.  Python
exceptions are modelled with an explicit outcome type that carries the
store state at raise time, since SQLite writes already committed before
a raise survive it.
-/

namespace SecondMe

/-- Ordering key for timestamps (`created_at`, `last_active_at`, ...).
ISO strings produced by `datetime.now().isoformat()` compare
lexicographically in the same order as the instants they denote, so we
embed them as integers (unit: minutes, matching the configuration). -/
abbrev Time := Int

/-- Python exceptions that the embedded code can raise. -/
inductive PyErr where
  | typeError
  | attributeError
  | bindingError
deriving DecidableEq, Repr

/-! ## JSON values and Python's `json.loads`

`server/extraction.py` parses the model response with `json.loads`.
We embed JSON values and a recursive-descent parser for the JSON
grammar accepted by `json.loads` (including its default acceptance of
`NaN` / `Infinity` and its rejection of trailing data and of raw
control characters inside strings).  Numeric tokens are kept verbatim:
no claim inspects numeric values beyond truthiness. -/

inductive Json where
  | null
  | bool (b : Bool)
  | num (tok : List Char)
  | str (s : String)
  | arr (elems : List Json)
  | obj (members : List (String × Json))

/-- JSON whitespace as accepted by `json.loads`. -/
def isJsonWs (c : Char) : Bool :=
  c = ' ' || c = '\t' || c = '\n' || c = '\r'

def skipWs : List Char → List Char
  | [] => []
  | c :: rest => if isJsonWs c then skipWs rest else c :: rest

def isDigitChar (c : Char) : Bool := '0' ≤ c && c ≤ '9'

/-- Value of one hexadecimal digit (for `\u` escapes), by code point:
48-57 are `0`-`9`, 97-102 are `a`-`f`, 65-70 are `A`-`F`. -/
def hexVal (c : Char) : Option Nat :=
  let n := c.toNat
  if 48 ≤ n ∧ n ≤ 57 then some (n - 48)
  else if 97 ≤ n ∧ n ≤ 102 then some (n - 87)
  else if 65 ≤ n ∧ n ≤ 70 then some (n - 55)
  else none

/-- Parse the body of a JSON string (the opening quote already
consumed), handling the escape sequences `json.loads` accepts and
rejecting unescaped control characters. -/
def parseStringBody (acc : List Char) : List Char → Option (String × List Char)
  | [] => none
  | '"' :: rest => some (String.mk acc.reverse, rest)
  | '\\' :: esc => match esc with
    | '"' :: rest => parseStringBody ('"' :: acc) rest
    | '\\' :: rest => parseStringBody ('\\' :: acc) rest
    | '/' :: rest => parseStringBody ('/' :: acc) rest
    | 'b' :: rest => parseStringBody ('\x08' :: acc) rest
    | 'f' :: rest => parseStringBody ('\x0c' :: acc) rest
    | 'n' :: rest => parseStringBody ('\n' :: acc) rest
    | 'r' :: rest => parseStringBody ('\r' :: acc) rest
    | 't' :: rest => parseStringBody ('\t' :: acc) rest
    | 'u' :: a :: b :: c :: d :: rest =>
      match hexVal a, hexVal b, hexVal c, hexVal d with
      | some ha, some hb, some hc, some hd =>
        parseStringBody (Char.ofNat (((ha * 16 + hb) * 16 + hc) * 16 + hd) :: acc) rest
      | _, _, _, _ => none
    | _ => none
  | c :: rest => if c.toNat < 0x20 then none else parseStringBody (c :: acc) rest

/-- Consume a run of decimal digits. -/
def takeDigits : List Char → List Char × List Char
  | [] => ([], [])
  | c :: rest =>
    if isDigitChar c then
      let (ds, r) := takeDigits rest
      (c :: ds, r)
    else ([], c :: rest)

/-- Parse a JSON number token per the grammar `json.loads` uses:
`-? (0 | [1-9][0-9]*) (. [0-9]+)? ([eE][+-]?[0-9]+)?`, plus the
`Infinity` variants it accepts after a sign. -/
def parseNumberTok (s : List Char) : Option (List Char × List Char) :=
  let (sign, s1) := match s with
    | '-' :: rest => (['-'], rest)
    | _ => (([] : List Char), s)
  match s1 with
  | 'I' :: 'n' :: 'f' :: 'i' :: 'n' :: 'i' :: 't' :: 'y' :: rest =>
    some (sign ++ ['I','n','f','i','n','i','t','y'], rest)
  | _ =>
  match takeDigits s1 with
  | ([], _) => none
  | (intDs, s2) =>
    if intDs.length > 1 && intDs.head? = some '0' then none
    else
      let (fracPart, s3) : List Char × List Char := match s2 with
        | '.' :: s2' =>
          match takeDigits s2' with
          | ([], _) => ([], '.' :: s2')
          | (fds, r) => ('.' :: fds, r)
        | _ => ([], s2)
      -- a lone '.' with no digits is a parse error in json.loads
      if s2 ≠ s3 ∨ fracPart ≠ [] then
        let (expPart, s4) : List Char × List Char := match s3 with
          | e :: s3' =>
            if e = 'e' ∨ e = 'E' then
              let (sgn, s3'') : List Char × List Char := match s3' with
                | '+' :: r => (['+'], r)
                | '-' :: r => (['-'], r)
                | _ => ([], s3')
              match takeDigits s3'' with
              | ([], _) => ([], e :: s3')
              | (eds, r) => (e :: sgn ++ eds, r)
            else ([], e :: s3')
          | [] => ([], [])
        if (fracPart = [] ∧ s2 ≠ s3) then none
        else some (sign ++ intDs ++ fracPart ++ expPart, s4)
      else
        let (expPart, s4) : List Char × List Char := match s2 with
          | e :: s2' =>
            if e = 'e' ∨ e = 'E' then
              let (sgn, s2'') : List Char × List Char := match s2' with
                | '+' :: r => (['+'], r)
                | '-' :: r => (['-'], r)
                | _ => ([], s2')
              match takeDigits s2'' with
              | ([], _) => ([], e :: s2')
              | (eds, r) => (e :: sgn ++ eds, r)
            else ([], e :: s2')
          | [] => ([], [])
        some (sign ++ intDs ++ expPart, s4)

/-- Insert a key/value pair into an object's member list with Python
`dict` semantics: a duplicate key keeps its first position but takes
the last value. -/
def insertMember (ms : List (String × Json)) (k : String) (v : Json) :
    List (String × Json) :=
  match ms with
  | [] => [(k, v)]
  | (k', v') :: rest =>
    if k' = k then (k', v) :: rest else (k', v') :: insertMember rest k v

mutual

/-- Recursive-descent JSON value parser (fuel-indexed). -/
def parseValue : Nat → List Char → Option (Json × List Char)
  | 0, _ => none
  | fuel + 1, s =>
    match skipWs s with
    | [] => none
    | 'n' :: 'u' :: 'l' :: 'l' :: rest => some (Json.null, rest)
    | 't' :: 'r' :: 'u' :: 'e' :: rest => some (Json.bool true, rest)
    | 'f' :: 'a' :: 'l' :: 's' :: 'e' :: rest => some (Json.bool false, rest)
    | 'N' :: 'a' :: 'N' :: rest => some (Json.num ['N','a','N'], rest)
    | '"' :: rest =>
      match parseStringBody [] rest with
      | some (str, r) => some (Json.str str, r)
      | none => none
    | '[' :: rest => parseArrayElems fuel (skipWs rest) true []
    | '\x7b' :: rest => parseObjMembers fuel (skipWs rest) true []
    | c :: rest =>
      if c = '-' ∨ isDigitChar c ∨ c = 'I' then
        match parseNumberTok (c :: rest) with
        | some (tok, r) => some (Json.num tok, r)
        | none => none
      else none

/-- Parse array elements after `[` (whitespace already skipped).
`first` is true before the first element. -/
def parseArrayElems : Nat → List Char → Bool → List Json → Option (Json × List Char)
  | 0, _, _, _ => none
  | fuel + 1, s, first, acc =>
    match s with
    | ']' :: rest => if first then some (Json.arr [], rest) else none
    | _ =>
      match parseValue fuel s with
      | none => none
      | some (v, r) =>
        match skipWs r with
        | ',' :: r' => parseArrayElems fuel (skipWs r') false (v :: acc)
        | ']' :: r' => some (Json.arr (v :: acc).reverse, r')
        | _ => none

/-- Parse object members after `\x7b` (whitespace already skipped). -/
def parseObjMembers : Nat → List Char → Bool → List (String × Json) →
    Option (Json × List Char)
  | 0, _, _, _ => none
  | fuel + 1, s, first, acc =>
    match s with
    | '\x7d' :: rest => if first then some (Json.obj [], rest) else none
    | '"' :: rest =>
      match parseStringBody [] rest with
      | none => none
      | some (k, r) =>
        match skipWs r with
        | ':' :: r' =>
          match parseValue fuel (skipWs r') with
          | none => none
          | some (v, r'') =>
            match skipWs r'' with
            | ',' :: r3 =>
              match skipWs r3 with
              | '"' :: r4 =>
                parseObjMembers fuel ('"' :: r4) false (insertMember acc k v)
              | _ => none
            | '\x7d' :: r3 => some (Json.obj (insertMember acc k v), r3)
            | _ => none
        | _ => none
    | _ => none

end

/-- Embeds `json.loads(s)`: decode one JSON value and reject any
non-whitespace trailing data. `none` is a raised `JSONDecodeError`. -/
def json_loads (s : List Char) : Option Json :=
  match parseValue (2 * s.length + 4) s with
  | some (j, rest) => if skipWs rest = [] then some j else none
  | none => none

/-! ## The defensive extraction-result parser

`extraction.py::_parse_extraction_result` first tries `json.loads` on
the whole response; on failure it applies `re.search(r'\x7b[\s\S]*\x7d',
response)` — a greedy pattern whose match, when one exists, runs from
the first `\x7b` of the response to the last `\x7d` — and decodes the
match; if everything fails it returns the empty result object. -/

/-- The substring matched by `re.search(r'\x7b[\s\S]*\x7d', s)`:
from the first `\x7b` through the last `\x7d`, provided some `\x7d`
occurs after the first `\x7b`. -/
def braceSpan (s : List Char) : Option (List Char) :=
  let t := s.dropWhile (fun c => c ≠ '\x7b')
  let u := (t.reverse.dropWhile (fun c => c ≠ '\x7d')).reverse
  if 2 ≤ u.length then some u else none

/-- The fallback object `_parse_extraction_result` returns when both
decode attempts fail. -/
def emptyExtractionResult : Json :=
  Json.obj [("add", Json.arr []), ("update", Json.arr []),
            ("reason", Json.str "解析失败")]

/-- Embeds `extraction.py::_parse_extraction_result`. -/
def parse_extraction_result (response : List Char) : Json :=
  match json_loads response with
  | some j => j
  | none =>
    match braceSpan response with
    | some sub =>
      match json_loads sub with
      | some j => j
      | none => emptyExtractionResult
    | none => emptyExtractionResult

/-! ## Python truthiness and `dict.get` on JSON values -/

/-- Python truthiness of a value decoded from JSON (`if not x: ...`).
A number is falsy iff its mantissa digits are all zero. -/
def Json.truthy : Json → Bool
  | .null => false
  | .bool b => b
  | .num tok =>
    !((tok.takeWhile (fun c => c ≠ 'e' ∧ c ≠ 'E')).all
        (fun c => c = '0' ∨ c = '-' ∨ c = '.'))
  | .str s => !(s = "")
  | .arr l => !l.isEmpty
  | .obj ms => !ms.isEmpty

/-- Embeds Python's `value.get(key, default)`.  `none` models the
`AttributeError` raised when the value is not a dict. -/
def Json.pyGet (j : Json) (key : String) (dflt : Json) : Option Json :=
  match j with
  | .obj ms => some (((ms.find? (fun kv => kv.1 = key)).map (·.2)).getD dflt)
  | _ => none

/-! ## Relational data model (`server/database.py`)

SQLite rows become records; each embedded function mirrors one SQL
statement of `database.py`.  `ORDER BY created_at ASC` is embedded as
a stable insertion sort on the ordering key. -/

structure Topic where
  id : String
  user_id : String
  last_active_at : Option Time
  memory_processed_at : Option Time
  last_processed_message_id : Option String
deriving DecidableEq, Repr

structure Message where
  id : String
  topic_id : String
  role : String
  content : String
  created_at : Time
deriving DecidableEq, Repr

structure MemoryRow where
  id : String
  user_id : String
  content : String
  source : String
  source_topic_id : Option String
  memory_type : String
deriving DecidableEq, Repr

/-- A record of a vector collection (ChromaDB): id, document text,
embedding and the `source` metadata tag. -/
structure VecRec where
  id : String
  document : String
  embedding : List Int
  source : String
deriving DecidableEq, Repr

structure Flowmo where
  id : String
  user_id : String
  content : String
  source : String
  topic_id : Option String
  message_id : Option String
  created_at : Time
deriving DecidableEq, Repr

/-- The persistent store: SQLite tables plus the `memories` vector
collection.  (The `flowmos` vector collection is untouched by the
functions under study and is omitted.) -/
structure DB where
  topics : List Topic
  messages : List Message
  memories : List MemoryRow
  memVectors : List VecRec
  flowmos : List Flowmo
deriving DecidableEq, Repr

/-- Stable ascending sort by `created_at` (`ORDER BY created_at ASC`). -/
def sortByCreated (l : List Message) : List Message :=
  List.insertionSort (fun m1 m2 => m1.created_at ≤ m2.created_at) l

/-- Embeds `database.find_topics_need_processing(threshold_iso)`:
`last_active_at IS NOT NULL AND last_active_at < threshold AND
(memory_processed_at IS NULL OR last_active_at > memory_processed_at)`. -/
def topic_needs_processing (t : Topic) (threshold : Time) : Bool :=
  match t.last_active_at with
  | none => false
  | some a =>
    a < threshold &&
      (match t.memory_processed_at with
       | none => true
       | some m => m < a)

def find_topics_need_processing (db : DB) (threshold : Time) : List Topic :=
  db.topics.filter (fun t => topic_needs_processing t threshold)

/-- Embeds `database.get_unprocessed_messages(topic)`.  With a cursor,
the SQL compares `created_at` against the cursor message's
`created_at` via a subquery; if the cursor id matches no message the
subquery yields NULL and the comparison selects nothing. -/
def get_unprocessed_messages (db : DB) (topic : Topic) : List Message :=
  match topic.last_processed_message_id with
  | some mid =>
    match db.messages.find? (fun m => m.id = mid) with
    | none => []
    | some m0 =>
      sortByCreated (db.messages.filter
        (fun m => m.topic_id = topic.id && m0.created_at < m.created_at))
  | none => sortByCreated (db.messages.filter (fun m => m.topic_id = topic.id))

/-- Embeds `database.mark_topic_processed(topic_id, last_message_id)`;
`now` is the `datetime.now()` taken inside the call. -/
def mark_topic_processed (db : DB) (topic_id : String)
    (last_message_id : String) (now : Time) : DB :=
  { db with topics := db.topics.map (fun t =>
      if t.id = topic_id then
        { t with memory_processed_at := some now,
                 last_processed_message_id := some last_message_id }
      else t) }

/-- Embeds `database.create_extracted_memory(user_id, content,
memory_type, source_topic_id)` — note that `user_id` is a required
positional parameter.  `new_id` stands for the generated `uuid4`. -/
def create_extracted_memory (db : DB) (user_id content memory_type : String)
    (source_topic_id : Option String) (new_id : String) : DB × MemoryRow :=
  let row : MemoryRow :=
    { id := new_id, user_id := user_id, content := content,
      source := "chat", source_topic_id := source_topic_id,
      memory_type := memory_type }
  ({ db with memories := db.memories ++ [row] }, row)

/-- Embeds `database.update_memory_content(memory_id, content)`:
`UPDATE memories SET content = ? WHERE id = ?`, no ownership filter. -/
def update_memory_content (db : DB) (memory_id content : String) : DB :=
  { db with memories := db.memories.map (fun m =>
      if m.id = memory_id then { m with content := content } else m) }

/-- Embeds `database.get_messages(topic_id)`. -/
def get_messages (db : DB) (topic_id : String) : List Message :=
  sortByCreated (db.messages.filter (fun m => m.topic_id = topic_id))

/-- Embeds `database.get_latest_flowmo_time(topic_id)`:
`SELECT created_at ... WHERE topic_id = ? ORDER BY created_at DESC LIMIT 1`. -/
def get_latest_flowmo_time (db : DB) (topic_id : String) : Option Time :=
  ((List.insertionSort (fun f1 f2 => f2.created_at ≤ f1.created_at)
      (db.flowmos.filter (fun f => f.topic_id = some topic_id))).head?).map
    (·.created_at)

/-- Embeds `database.delete_all_memories()`: reads all memory ids,
then `DELETE FROM memories` with no owner filter; returns the count
and the ids. -/
def delete_all_memories_rows (db : DB) : DB × Nat × List String :=
  ({ db with memories := [] }, db.memories.length, db.memories.map (·.id))

/-! ## Vector index and retrieval (`server/memory.py`)

A collection is embedded as a list of hits whose `distance` field is
the distance of that record's embedding to the query embedding at
hand (the query embedding itself is opaque to all code under study,
which only ever passes it through to ChromaDB). -/

/-- A formatted search result (`{id, content, source, distance}`). -/
structure Hit where
  id : String
  content : String
  source : String
  distance : ℚ
deriving DecidableEq, Repr

/-- Comparison used for ranking: ascending by distance. -/
def hitLE (a b : Hit) : Prop := a.distance ≤ b.distance

instance : DecidableRel hitLE := fun a b => inferInstanceAs (Decidable (a.distance ≤ b.distance))

instance : IsTotal Hit hitLE := ⟨fun a b => le_total a.distance b.distance⟩

instance : IsTrans Hit hitLE := ⟨fun _ _ _ h1 h2 => le_trans h1 h2⟩

/-- Modelled from the spec: the external ChromaDB
`collection.query(query_embeddings=[e], n_results=n)` (not part of
this repository) returns the `n` nearest records in ascending distance
order — spec §4.3: "`query(embedding, k) -> ordered list ... ascending
by distance`". -/
def chromaQuery (col : List Hit) (n : Nat) : List Hit :=
  (List.insertionSort hitLE col).take n

/-- The formatting loop of `memory.search_memories`: skip excluded
ids, append, and break once `top_k` results are collected (the break
test runs after the append, so `top_k = 0` still yields one hit when
any is available). -/
def collectHits : List Hit → Option (List String) → Nat → List Hit
  | [], _, _ => []
  | h :: rest, exclude, top_k =>
    if (match exclude with
        | some ex => !ex.isEmpty && ex.contains h.id
        | none => false) then
      collectHits rest exclude top_k
    else if top_k ≤ 1 then [h]
    else h :: collectHits rest exclude (top_k - 1)

/-- Embeds `memory.search_memories(query_embedding, top_k, exclude_ids)`
against the `memories` collection. -/
def search_memories (col : List Hit) (top_k : Nat)
    (exclude_ids : Option (List String)) : List Hit :=
  let n := top_k + (match exclude_ids with
    | some ex => if ex.isEmpty then 0 else ex.length
    | none => 0)
  collectHits (chromaQuery col n) exclude_ids top_k

/-- Embeds `memory.search_flowmos(query_embedding, top_k)` against the
`flowmos` collection (tags every hit with source `"flowmo"`). -/
def search_flowmos (col : List Hit) (top_k : Nat) : List Hit :=
  (chromaQuery col top_k).map (fun h => { h with source := "flowmo" })

/-- Embeds `memory.search_memories_and_flowmos(query_embedding, top_k)`:
fetch `top_k * 2` from each collection, concatenate, sort ascending by
distance (Python's stable `list.sort`), truncate to `top_k`. -/
def search_memories_and_flowmos (memCol flowCol : List Hit) (top_k : Nat) :
    List Hit :=
  let memories := search_memories memCol (top_k * 2) none
  let flowmos := search_flowmos flowCol (top_k * 2)
  (List.insertionSort hitLE (memories ++ flowmos)).take top_k

/-- Embeds `memory.store_memory_vector(memory_id, content, embedding,
source)` (`collection.add`). -/
def store_memory_vector (db : DB) (memory_id content : String)
    (embedding : List Int) (source : String) : DB :=
  { db with memVectors := db.memVectors ++
      [{ id := memory_id, document := content, embedding := embedding,
         source := source }] }

/-- Embeds `memory.update_memory_vector(memory_id, content, embedding)`
(`collection.update`: replaces document and embedding of an existing
id; an absent id is a no-op). -/
def update_memory_vector (db : DB) (memory_id content : String)
    (embedding : List Int) : DB :=
  { db with memVectors := db.memVectors.map (fun v =>
      if v.id = memory_id then
        { v with document := content, embedding := embedding }
      else v) }

/-- Embeds `memory.clear_all_vectors()`: drop and recreate the
`memories` collection, leaving it empty. -/
def clear_all_vectors (db : DB) : DB :=
  { db with memVectors := [] }

/-- Embeds the `DELETE /api/memories/all` handler
(`main.delete_all_memories`): it declares no authentication
dependency and no owner scope — it deletes every row and clears the
whole collection, returning the deleted count. -/
def delete_all_memories_endpoint (db : DB) : DB × Nat :=
  let (db1, count, _ids) := delete_all_memories_rows db
  let db2 := clear_all_vectors db1
  (db2, count)

/-! ## The Reconciliation Engine (`server/extraction.py`)

`MemoryExtractionTask._extract_topic_memories` turns a parsed
extraction result into store mutations.  Python exceptions escaping a
statement leave earlier committed writes in place, so the outcome type
carries the store state at raise time. -/

/-- Relevant settings rows (`database.get_all_settings` is a string
key/value store; `memory_silent_minutes` and
`memory_context_messages` are read through `int(...)`). -/
structure Settings where
  memory_extraction_enabled : String
  memory_silent_minutes : Int
  memory_context_messages : Nat
  default_chat_provider_id : Option String
  default_chat_model : Option String
  embedding_provider_id : Option String
  embedding_model : Option String
deriving DecidableEq, Repr

/-- Python truthiness of `settings.get(key)` (None or empty string are
falsy). -/
def truthyOpt : Option String → Bool
  | none => false
  | some s => !(s = "")

/-- The injected capability providers (`ai_client`): the single
chat-completion call of a batch and the embedding function.  `.error`
models a raised provider/network exception. -/
structure Oracles where
  chat : Except Unit (List Char)
  embed : String → Except Unit (List Int)

/-- Result of running a piece of Python against the store: normal
completion, or an exception escaping with the store as mutated so far. -/
inductive ExtractOutcome where
  | ok (db : DB)
  | raised (e : PyErr) (db : DB)
deriving DecidableEq, Repr

/-- `len(x)` on a decoded JSON value (`none` = `TypeError`). -/
def pyLen : Json → Option Nat
  | .arr l => some l.length
  | .obj ms => some ms.length
  | .str s => some s.length
  | _ => none

/-- `for x in v` on a decoded JSON value: lists yield elements, dicts
their keys, strings their characters (`none` = `TypeError`). -/
def pyIter : Json → Option (List Json)
  | .arr l => some l
  | .obj ms => some (ms.map (fun kv => Json.str kv.1))
  | .str s => some (s.toList.map (fun c => Json.str (String.mk [c])))
  | _ => none

/-- Embeds the `add` loop (extraction.py:219-251).  For each item with
truthy `content` the source validates the type and then calls
`database.create_extracted_memory(content=..., memory_type=...,
source_topic_id=...)` (extraction.py:228-232) — omitting the required
positional parameter `user_id` of
`database.create_extracted_memory(user_id, content, memory_type,
source_topic_id)` (database.py:847), so Python raises a `TypeError`
at the call site before any row is inserted. -/
def applyAdds (db : DB) (adds : List Json) : ExtractOutcome :=
  match adds with
  | [] => .ok db
  | mem :: rest =>
    match mem.pyGet "content" Json.null with
    | none => .raised .attributeError db
    | some contentJ =>
      if !contentJ.truthy then applyAdds db rest
      else .raised .typeError db

/-- Embeds the `update` loop (extraction.py:253-273): items with a
falsy `id` or `content` are skipped; otherwise the row content is
overwritten and the vector refresh is attempted inside a `try` whose
failure is swallowed.  A non-string `id` or `content` binds a
non-TEXT SQLite value (a list/dict binding raises in the driver, and
no other non-text value can equal a TEXT uuid key); no claim
exercises those shapes and they are modelled as a raised
`bindingError`. -/
def applyUpdates (db : DB) (cfg : Settings) (orc : Oracles)
    (updates : List Json) : ExtractOutcome :=
  match updates with
  | [] => .ok db
  | mem :: rest =>
    match mem.pyGet "id" Json.null, mem.pyGet "content" Json.null with
    | some idJ, some contentJ =>
      if !idJ.truthy || !contentJ.truthy then applyUpdates db cfg orc rest
      else
        match idJ, contentJ with
        | Json.str i, Json.str c =>
          let db1 := update_memory_content db i c
          let db2 :=
            if truthyOpt cfg.embedding_provider_id &&
               truthyOpt cfg.embedding_model then
              match orc.embed c with
              | .ok e => update_memory_vector db1 i c e
              | .error _ => db1
            else db1
          applyUpdates db2 cfg orc rest
        | _, _ => .raised .bindingError db
    | _, _ => .raised .attributeError db

/-- Embeds `MemoryExtractionTask._extract_topic_memories(topic,
settings)`.  The context-window fetch, related-memory search and
prompt construction (extraction.py:177-194) are read-only (their own
failures are caught inside `_search_related_memories`) and do not
affect the store, so they are not modelled; the chat oracle stands
for the single `ai_client.chat_completion` call. -/
def extract_topic_memories (db : DB) (topic : Topic) (cfg : Settings)
    (orc : Oracles) (now : Time) : ExtractOutcome :=
  match (get_unprocessed_messages db topic).getLast? with
  | none => .ok db
  | some lastMsg =>
    if !(truthyOpt cfg.default_chat_provider_id &&
         truthyOpt cfg.default_chat_model) then
      .ok db
    else
      match orc.chat with
      | .error _ => .ok db
      | .ok response =>
        match (parse_extraction_result response).pyGet "add" (Json.arr []),
              (parse_extraction_result response).pyGet "update" (Json.arr []) with
        | some addsJ, some updatesJ =>
          (match pyLen addsJ, pyLen updatesJ with
           | some _, some _ =>
             (match pyIter addsJ with
              | none => .raised PyErr.typeError db
              | some adds =>
                match applyAdds db adds with
                | .raised e db1 => .raised e db1
                | .ok db1 =>
                  match pyIter updatesJ with
                  | none => .raised PyErr.typeError db1
                  | some updates =>
                    match applyUpdates db1 cfg orc updates with
                    | .raised e db2 => .raised e db2
                    | .ok db2 =>
                      .ok (mark_topic_processed db2 topic.id lastMsg.id now))
           | _, _ => .raised PyErr.typeError db)
        | _, _ => .raised PyErr.attributeError db

/-- The per-topic `try/except` of `_check_and_extract`: an exception
from one topic is logged and the scan continues with the store as
mutated so far. -/
def extract_topic_memories_caught (db : DB) (topic : Topic) (cfg : Settings)
    (orc : Oracles) (now : Time) : DB :=
  match extract_topic_memories db topic cfg orc now with
  | .ok db' => db'
  | .raised _ db' => db'

/-- Embeds Python's `str.lower()` for the settings values compared
against `"true"` (ASCII suffices for that comparison). -/
def pyLower (s : String) : String :=
  String.mk (s.toList.map Char.toLower)

/-- The topics one scheduler cycle selects: none when extraction is
disabled, else `find_topics_need_processing` at threshold
`now - memory_silent_minutes` (extraction.py:146-160). -/
def scheduler_selected_topics (db : DB) (cfg : Settings) (now : Time) :
    List Topic :=
  if !(pyLower cfg.memory_extraction_enabled = "true") then []
  else find_topics_need_processing db (now - cfg.memory_silent_minutes)

/-- Embeds one scheduler cycle
(`MemoryExtractionTask._check_and_extract`): the eligible-topic list
is computed once against the incoming store, then each topic is
processed in order.  `orcs` gives the capability oracle used for each
topic's batch. -/
def check_and_extract (db : DB) (cfg : Settings) (orcs : String → Oracles)
    (now : Time) : DB :=
  if !(pyLower cfg.memory_extraction_enabled = "true") then db
  else
    (scheduler_selected_topics db cfg now).foldl
      (fun acc t => extract_topic_memories_caught acc t cfg (orcs t.id) now) db

/-! ## The Session Segmenter (`server/main.py`, Flowmo) -/

/-- Default `FLOWMO_INTERVAL_MINUTES` (config.py:47). -/
def FLOWMO_INTERVAL_MINUTES : Int := 5

/-- Embeds `main._is_new_flowmo(topic_id, last_message_time)` (the
`topic_id` parameter is unused in the source): true iff there is no
previous message or `now - last_time >= interval`. -/
def is_new_flowmo (last_message_time : Option Time) (now interval : Time) :
    Bool :=
  match last_message_time with
  | none => true
  | some t => interval ≤ now - t

/-- The new-session decision of `main._handle_flowmo_record`: the
previous message is `messages[-2]` of the topic (the current message
is the last row; `last_message_time` is None when the current message
is the only one). -/
def flowmo_is_new (db : DB) (topic_id : String) (now interval : Time) :
    Bool :=
  is_new_flowmo
    (if (get_messages db topic_id).length ≤ 1 then none
     else ((get_messages db topic_id).dropLast.getLast?).map (·.created_at))
    now interval

/-- Embeds `main._get_flowmo_context_messages(topic_id, current_message)`
as a list of `(role, content)` pairs (the source's local variables are
inlined). -/
def get_flowmo_context_messages (db : DB) (topic_id : String)
    (current : Message) (now interval : Time) : List (String × String) :=
  if (get_messages db topic_id).length ≤ 1 then
    [(current.role, current.content)]
  else if is_new_flowmo
      (((get_messages db topic_id).dropLast.getLast?).map (·.created_at))
      now interval then
    [(current.role, current.content)]
  else
    match get_latest_flowmo_time db topic_id with
    | none => (get_messages db topic_id).map (fun m => (m.role, m.content))
    | some tau =>
      if ((get_messages db topic_id).filter
          (fun m => tau ≤ m.created_at)).isEmpty then
        [(current.role, current.content)]
      else
        ((get_messages db topic_id).filter
          (fun m => tau ≤ m.created_at)).map (fun m => (m.role, m.content))

/-! ## Concrete fixtures used by witnesses and counterexamples -/

/-- A one-topic, one-message store whose only message fell silent at
time 9. -/
def exTopic : Topic :=
  { id := "t1", user_id := "u1", last_active_at := some 9,
    memory_processed_at := none, last_processed_message_id := none }

def exDB : DB :=
  { topics := [exTopic],
    messages := [{ id := "m1", topic_id := "t1", role := "user",
                   content := "hello", created_at := 9 }],
    memories := [], memVectors := [], flowmos := [] }

/-- Settings with extraction enabled, a 2-minute silence threshold and
both capability providers configured. -/
def exCfg : Settings :=
  { memory_extraction_enabled := "true", memory_silent_minutes := 2,
    memory_context_messages := 6,
    default_chat_provider_id := some "p", default_chat_model := some "m",
    embedding_provider_id := some "ep", embedding_model := some "em" }

/-- A model response whose `add` list holds one well-formed item. -/
def exAddResponse : List Char :=
  "\x7b\"add\":[\x7b\"type\":\"plan\",\"content\":\"User plans X\"\x7d],\"update\":[],\"reason\":\"r\"\x7d".toList

/-- A model response that extracts nothing. -/
def exEmptyResponse : List Char :=
  "\x7b\"add\":[],\"update\":[],\"reason\":\"nothing\"\x7d".toList

def exOrcAdd : Oracles := { chat := .ok exAddResponse, embed := fun _ => .ok [1] }

def exOrcEmpty : Oracles := { chat := .ok exEmptyResponse, embed := fun _ => .ok [1] }

/-! ## Claims -/

/-- C1 (code bug): for a batch whose parsed result contains an `add`
item with non-empty content, the call site
`database.create_extracted_memory(content=..., memory_type=...,
source_topic_id=...)` (extraction.py:228) omits the required
positional argument `user_id` of the callee (database.py:847), so
Python raises a `TypeError` before any insert: no Memory row with
source `"chat"` is created, and the topic's cursor is not advanced —
contradicting the claimed creation of a durable Memory row. -/
theorem extraction_add_item_raises_missing_user_id :
    extract_topic_memories exDB exTopic exCfg exOrcAdd 12 =
      .raised PyErr.typeError exDB ∧
    extract_topic_memories_caught exDB exTopic exCfg exOrcAdd 12 = exDB ∧
    (extract_topic_memories_caught exDB exTopic exCfg exOrcAdd 12).memories = [] ∧
    (extract_topic_memories_caught exDB exTopic exCfg exOrcAdd 12).topics.map
      (fun t => t.last_processed_message_id) = [none] := by
  refine ⟨by decide, by decide, by decide, by decide⟩

/-- C2: if the single chat-capability invocation raises, the batch is
aborted before any mutation: the store is returned unchanged — no
Memory row created or updated, no vector written, cursor and
`memory_processed_at` untouched — and the same unprocessed messages
are still there for the next cycle. -/
theorem capability_failure_aborts_batch (db : DB) (topic : Topic)
    (cfg : Settings) (orc : Oracles) (now : Time)
    (h : orc.chat = .error ()) :
    extract_topic_memories db topic cfg orc now = .ok db ∧
    extract_topic_memories_caught db topic cfg orc now = db ∧
    (extract_topic_memories_caught db topic cfg orc now).memories = db.memories ∧
    (extract_topic_memories_caught db topic cfg orc now).memVectors = db.memVectors ∧
    (extract_topic_memories_caught db topic cfg orc now).topics = db.topics ∧
    get_unprocessed_messages (extract_topic_memories_caught db topic cfg orc now)
      topic = get_unprocessed_messages db topic := by
  have h2 : extract_topic_memories db topic cfg orc now = .ok db := by
    unfold extract_topic_memories
    cases hg : (get_unprocessed_messages db topic).getLast? with
    | none => simp [hg]
    | some lastMsg => simp [hg, h]
  have h3 : extract_topic_memories_caught db topic cfg orc now = db := by
    unfold extract_topic_memories_caught
    rw [h2]
  exact ⟨h2, h3, by rw [h3], by rw [h3], by rw [h3], by rw [h3]⟩

/-- Closed witness for `capability_failure_aborts_batch`. -/
theorem capability_failure_aborts_batch_witness :
    extract_topic_memories_caught exDB exTopic exCfg
      { chat := .error (), embed := fun _ => .ok [1] } 12 = exDB :=
  (capability_failure_aborts_batch exDB exTopic exCfg
    { chat := .error (), embed := fun _ => .ok [1] } 12 rfl).2.1

/-- C10: the bulk delete-all-memories operation deletes every Memory
row of every user and empties the memories vector collection: its SQL
has no owner filter and the handler takes no authenticated user, so
afterwards the table and the collection are empty for all owners. -/
theorem delete_all_memories_deletes_every_owner (db : DB) (u : String) :
    (delete_all_memories_endpoint db).1.memories = [] ∧
    (delete_all_memories_endpoint db).1.memVectors = [] ∧
    (delete_all_memories_endpoint db).2 = db.memories.length ∧
    ((delete_all_memories_endpoint db).1.memories.filter
      (fun m => m.user_id = u)) = [] := by
  simp [delete_all_memories_endpoint, delete_all_memories_rows,
        clear_all_vectors]

/-- C3: when the model response fails both JSON parse attempts, the
result is the empty object, so zero Memory rows are created or
modified, no vector is written, no exception escapes the per-topic
boundary (the outcome is `.ok`), and the cursor is still advanced to
the batch's last message with `memory_processed_at` stamped. -/
theorem parse_failure_is_empty_result_and_advances_cursor
    (db : DB) (topic : Topic) (cfg : Settings) (orc : Oracles) (now : Time)
    (resp : List Char) (lastMsg : Message)
    (hlast : (get_unprocessed_messages db topic).getLast? = some lastMsg)
    (hchat : orc.chat = .ok resp)
    (hprov : truthyOpt cfg.default_chat_provider_id = true)
    (hmod : truthyOpt cfg.default_chat_model = true)
    (hp1 : json_loads resp = none)
    (hp2 : ∀ u, braceSpan resp = some u → json_loads u = none) :
    extract_topic_memories db topic cfg orc now =
      .ok (mark_topic_processed db topic.id lastMsg.id now) ∧
    (mark_topic_processed db topic.id lastMsg.id now).memories = db.memories ∧
    (mark_topic_processed db topic.id lastMsg.id now).memVectors =
      db.memVectors ∧
    (mark_topic_processed db topic.id lastMsg.id now).topics =
      db.topics.map (fun t => if t.id = topic.id then
        { t with memory_processed_at := some now,
                 last_processed_message_id := some lastMsg.id }
        else t) := by
  have hres : parse_extraction_result resp = emptyExtractionResult := by
    unfold parse_extraction_result
    rw [hp1]
    cases hb : braceSpan resp with
    | none => simp
    | some u => simp [hp2 u hb]
  refine ⟨?_, by simp [mark_topic_processed], by simp [mark_topic_processed],
          by simp [mark_topic_processed]⟩
  unfold extract_topic_memories
  simp only [hlast, hchat, hprov, hmod, hres]
  simp [emptyExtractionResult, Json.pyGet, pyLen, pyIter, applyAdds,
        applyUpdates, List.find?]

/-- Closed witness for `parse_failure_is_empty_result_and_advances_cursor`:
a non-JSON response on the one-topic fixture. -/
theorem parse_failure_advances_cursor_witness :
    extract_topic_memories exDB exTopic exCfg
      { chat := .ok "no json here".toList, embed := fun _ => .ok [1] } 12 =
      .ok (mark_topic_processed exDB exTopic.id "m1" 12) :=
  (parse_failure_is_empty_result_and_advances_cursor exDB exTopic exCfg
    { chat := .ok "no json here".toList, embed := fun _ => .ok [1] } 12
    "no json here".toList
    { id := "m1", topic_id := "t1", role := "user", content := "hello",
      created_at := 9 }
    (by decide) rfl (by decide) (by decide) rfl
    (by intro u h
        rw [show braceSpan "no json here".toList = none from rfl] at h
        exact Option.noConfusion h)).1

/-- C4: a topic is selected by a scheduler cycle iff its
`last_active_at` is set, earlier than `now - silent_minutes`, and
either `memory_processed_at` is unset or older than `last_active_at`;
and once `memory_processed_at` is stamped after the latest activity
the topic fails the predicate at every threshold until new activity
occurs. -/
theorem silence_gating_eligibility (db : DB) (cfg : Settings) (now : Time)
    (t : Topic)
    (henabled : pyLower cfg.memory_extraction_enabled = "true") :
    (t ∈ scheduler_selected_topics db cfg now ↔
      t ∈ db.topics ∧ ∃ a, t.last_active_at = some a ∧
        a < now - cfg.memory_silent_minutes ∧
        (t.memory_processed_at = none ∨
         ∃ m, t.memory_processed_at = some m ∧ m < a)) ∧
    (∀ (a markTime : Time) (lastId : String) (threshold : Time),
      t.last_active_at = some a → a < markTime →
      topic_needs_processing
        { t with memory_processed_at := some markTime,
                 last_processed_message_id := some lastId } threshold
        = false) := by
  constructor
  · rw [scheduler_selected_topics, if_neg (by simp [henabled])]
    rw [find_topics_need_processing, List.mem_filter]
    constructor
    · rintro ⟨hmem, hpred⟩
      refine ⟨hmem, ?_⟩
      unfold topic_needs_processing at hpred
      cases ha : t.last_active_at with
      | none => rw [ha] at hpred; exact absurd hpred (by simp)
      | some a =>
        rw [ha] at hpred
        cases hm : t.memory_processed_at with
        | none =>
          rw [hm] at hpred
          simp only [Bool.and_eq_true, decide_eq_true_eq] at hpred
          exact ⟨a, rfl, hpred.1, Or.inl rfl⟩
        | some m =>
          rw [hm] at hpred
          simp only [Bool.and_eq_true, decide_eq_true_eq] at hpred
          exact ⟨a, rfl, hpred.1, Or.inr ⟨m, rfl, hpred.2⟩⟩
    · rintro ⟨hmem, a, ha, hlt, hm⟩
      refine ⟨hmem, ?_⟩
      unfold topic_needs_processing
      rw [ha]
      rcases hm with hm | ⟨m, hm, hma⟩
      · rw [hm]; simp [hlt]
      · rw [hm]; simp [hlt, hma]
  · intro a markTime lastId threshold ha hlt
    unfold topic_needs_processing
    simp only [ha]
    simp [not_lt.mpr hlt.le]

/-- Closed witness for `silence_gating_eligibility`: the fixture topic
(last active at 9) is selected at `now = 12` with a 2-minute
threshold, and after being stamped at 12 it fails the predicate. -/
theorem silence_gating_eligibility_witness :
    (exTopic ∈ scheduler_selected_topics exDB exCfg 12 ↔
      exTopic ∈ exDB.topics ∧ ∃ a, exTopic.last_active_at = some a ∧
        a < 12 - exCfg.memory_silent_minutes ∧
        (exTopic.memory_processed_at = none ∨
         ∃ m, exTopic.memory_processed_at = some m ∧ m < a)) ∧
    topic_needs_processing
      { exTopic with memory_processed_at := some 12,
                     last_processed_message_id := some "m1" } 20 = false := by
  have h := silence_gating_eligibility exDB exCfg 12 exTopic (by decide)
  exact ⟨h.1, h.2 9 12 "m1" 20 rfl (by decide)⟩

/-! ## C7: the shape of the fallback extraction -/

theorem dropWhile_append_of_all {α : Type} (p : α → Bool) (l1 l2 : List α)
    (h : ∀ c ∈ l1, p c = true) :
    (l1 ++ l2).dropWhile p = l2.dropWhile p := by
  induction l1 with
  | nil => rfl
  | cons a l ih =>
    rw [List.cons_append, List.dropWhile_cons, h a (by simp)]
    exact ih (fun c hc => h c (by simp [hc]))

/-- The greedy fallback span of a response `p ++ mid ++ t` where the
prefix has no opening brace and the suffix no closing brace is
exactly `mid`. -/
theorem braceSpan_sandwich (p mid t : List Char)
    (hp : ∀ c ∈ p, c ≠ '\x7b')
    (ht : ∀ c ∈ t, c ≠ '\x7d')
    (hhead : mid.head? = some '\x7b')
    (hlast : mid.getLast? = some '\x7d') :
    braceSpan (p ++ mid ++ t) = some mid := by
  cases mid with
  | nil => simp at hhead
  | cons c mid1 =>
    have hc : c = '\x7b' := by simpa using hhead
    subst hc
    have h1 : ((p ++ ('\x7b' :: mid1) ++ t).dropWhile
        (fun c => c ≠ '\x7b')) = '\x7b' :: mid1 ++ t := by
      rw [List.append_assoc,
          dropWhile_append_of_all _ p _ (fun c hc => by simp [hp c hc])]
      simp [List.dropWhile_cons]
    have hrev : ('\x7b' :: mid1).reverse.head? = some '\x7d' := by
      rwa [List.head?_reverse]
    have h2 : (('\x7b' :: mid1 ++ t).reverse.dropWhile
        (fun c => c ≠ '\x7d')) = ('\x7b' :: mid1).reverse := by
      rw [List.reverse_append,
          dropWhile_append_of_all _ t.reverse _
            (fun c hc => by simp [ht c (List.mem_reverse.mp hc)])]
      cases hrv : ('\x7b' :: mid1).reverse with
      | nil => simp at hrv
      | cons d r1 =>
        have hd : d = '\x7d' := by rw [hrv] at hrev; simpa using hrev
        subst hd
        simp [List.dropWhile_cons]
    have hlen : 2 ≤ ('\x7b' :: mid1).length := by
      cases mid1 with
      | nil => simp at hlast
      | cons _ _ => simp
    unfold braceSpan
    simp only [h1]
    rw [show ('\x7b' :: mid1 ++ t) = (('\x7b' :: mid1) ++ t) from rfl] at h2 ⊢
    rw [h2, List.reverse_reverse, if_pos hlen]

/-- C7 counterexample: the response `'\x7b"add":[]\x7d done\x7d'`
contains the decodable balanced object `'\x7b"add":[]\x7d'` followed
by text containing `\x7d`, yet the parser returns the empty fallback
result instead of recovering that object: the fallback regex is
greedy (first `\x7b` to last `\x7d`), not a balanced-substring
search. -/
theorem greedy_fallback_counterexample :
    json_loads "\x7b\"add\":[]\x7d".toList =
      some (Json.obj [("add", Json.arr [])]) ∧
    "\x7b\"add\":[]\x7d done\x7d".toList =
      "\x7b\"add\":[]\x7d".toList ++ " done\x7d".toList ∧
    (" done\x7d".toList).contains '\x7d' = true ∧
    parse_extraction_result "\x7b\"add\":[]\x7d done\x7d".toList =
      emptyExtractionResult ∧
    parse_extraction_result "\x7b\"add\":[]\x7d done\x7d".toList ≠
      Json.obj [("add", Json.arr [])] := by
  refine ⟨rfl, rfl, rfl, rfl, ?_⟩
  rw [show parse_extraction_result "\x7b\"add\":[]\x7d done\x7d".toList =
      emptyExtractionResult from rfl]
  simp [emptyExtractionResult]

/-- C7 (amended): after a failed strict decode the parser decodes the
greedy span from the first `\x7b` to the last `\x7d` of the response;
it therefore recovers a decodable object exactly when that greedy
span decodes — in particular whenever the balanced object is preceded
by brace-free text and followed by text containing no further
`\x7d`. -/
theorem fallback_decodes_brace_span (p mid t : List Char) (j : Json)
    (hp : ∀ c ∈ p, c ≠ '\x7b')
    (ht : ∀ c ∈ t, c ≠ '\x7d')
    (hhead : mid.head? = some '\x7b')
    (hlast : mid.getLast? = some '\x7d')
    (hfull : json_loads (p ++ mid ++ t) = none)
    (hmid : json_loads mid = some j) :
    parse_extraction_result (p ++ mid ++ t) = j := by
  have hfull' : json_loads (p ++ (mid ++ t)) = none := by
    rw [← List.append_assoc]; exact hfull
  have hspan : braceSpan (p ++ (mid ++ t)) = some mid := by
    rw [← List.append_assoc]
    exact braceSpan_sandwich p mid t hp ht hhead hlast
  unfold parse_extraction_result
  simp [hfull', hspan, hmid]

/-- Closed witness for `fallback_decodes_brace_span`. -/
theorem fallback_decodes_brace_span_witness :
    parse_extraction_result
        ("reply: ".toList ++ "\x7b\"add\":[]\x7d".toList ++ " done".toList) =
      Json.obj [("add", Json.arr [])] :=
  fallback_decodes_brace_span "reply: ".toList "\x7b\"add\":[]\x7d".toList
    " done".toList (Json.obj [("add", Json.arr [])])
    (by decide) (by decide) rfl rfl rfl rfl

/-! ## C8: Flowmo session segmentation fixtures -/

def fmMsg0 : Message :=
  { id := "a", topic_id := "ft", role := "user", content := "one",
    created_at := 0 }

def fmMsg1 : Message :=
  { id := "b", topic_id := "ft", role := "user", content := "two",
    created_at := 4 }

def fmMsg2 : Message :=
  { id := "c", topic_id := "ft", role := "user", content := "three",
    created_at := 10 }

/-- The journal topic after the t=4 message: session started at t=0. -/
def fmDBa : DB :=
  { topics := [], messages := [fmMsg0, fmMsg1], memories := [],
    memVectors := [],
    flowmos := [{ id := "f0", user_id := "u", content := "one",
                  source := "chat", topic_id := some "ft",
                  message_id := some "a", created_at := 0 }] }

/-- The journal topic after the t=10 message (its session-start Flowmo
record already created by `_handle_flowmo_record`, which runs before
the context is built). -/
def fmDBb : DB :=
  { topics := [], messages := [fmMsg0, fmMsg1, fmMsg2], memories := [],
    memVectors := [],
    flowmos := [{ id := "f0", user_id := "u", content := "one",
                  source := "chat", topic_id := some "ft",
                  message_id := some "a", created_at := 0 },
                { id := "f1", user_id := "u", content := "three",
                  source := "chat", topic_id := some "ft",
                  message_id := some "c", created_at := 10 }] }

/-- C8: a journal message starts a new session iff there is no
previous message in the topic or the elapsed time since it is at
least the configured interval; a session-starting message's context
is just itself; a continuing message's context is every topic message
from the most recent session-start marker onward; and concretely,
with the default 5-minute interval, messages at t=0 and t=4 share a
session while a message at t=10 starts a new one. -/
theorem flowmo_session_segmentation :
    (∀ (db : DB) (tid : String) (now itv : Time),
      flowmo_is_new db tid now itv = true ↔
        ((get_messages db tid).length ≤ 1 ∨
         ∃ prev, (get_messages db tid).dropLast.getLast? = some prev ∧
           itv ≤ now - prev.created_at)) ∧
    (∀ (db : DB) (tid : String) (cur : Message) (now itv : Time),
      flowmo_is_new db tid now itv = true →
      get_flowmo_context_messages db tid cur now itv =
        [(cur.role, cur.content)]) ∧
    (∀ (db : DB) (tid : String) (cur : Message) (now itv tau : Time),
      flowmo_is_new db tid now itv = false →
      get_latest_flowmo_time db tid = some tau →
      ((get_messages db tid).filter (fun m => tau ≤ m.created_at)) ≠ [] →
      get_flowmo_context_messages db tid cur now itv =
        ((get_messages db tid).filter (fun m => tau ≤ m.created_at)).map
          (fun m => (m.role, m.content))) ∧
    (flowmo_is_new fmDBa "ft" 4 FLOWMO_INTERVAL_MINUTES = false ∧
     get_flowmo_context_messages fmDBa "ft" fmMsg1 4 FLOWMO_INTERVAL_MINUTES =
       [("user", "one"), ("user", "two")] ∧
     flowmo_is_new fmDBb "ft" 10 FLOWMO_INTERVAL_MINUTES = true ∧
     get_flowmo_context_messages fmDBb "ft" fmMsg2 10 FLOWMO_INTERVAL_MINUTES =
       [("user", "three")]) := by
  refine ⟨?_, ?_, ?_, by decide, by decide, by decide, by decide⟩
  · intro db tid now itv
    unfold flowmo_is_new
    by_cases hlen : (get_messages db tid).length ≤ 1
    · simp [hlen, is_new_flowmo]
    · rw [if_neg hlen]
      cases hg : (get_messages db tid).dropLast.getLast? with
      | none =>
        exfalso
        have h2 : (get_messages db tid).dropLast = [] :=
          List.getLast?_eq_none_iff.mp hg
        have h3 := List.length_dropLast (get_messages db tid)
        rw [h2] at h3
        simp at h3
        omega
      | some prev => simp [hg, is_new_flowmo, hlen]
  · intro db tid cur now itv hnew
    unfold get_flowmo_context_messages
    by_cases hlen : (get_messages db tid).length ≤ 1
    · rw [if_pos hlen]
    · rw [if_neg hlen]
      unfold flowmo_is_new at hnew
      rw [if_neg hlen] at hnew
      rw [if_pos hnew]
  · intro db tid cur now itv tau hnew htau hne
    have hlen : ¬ (get_messages db tid).length ≤ 1 := by
      intro hle
      unfold flowmo_is_new at hnew
      rw [if_pos hle] at hnew
      simp [is_new_flowmo] at hnew
    unfold get_flowmo_context_messages
    rw [if_neg hlen]
    unfold flowmo_is_new at hnew
    rw [if_neg hlen] at hnew
    rw [if_neg (by simp [hnew]), htau]
    dsimp only
    rw [if_neg (fun hemp => hne (List.isEmpty_iff.mp hemp))]

/-- Closed witness for `flowmo_session_segmentation`: the universally
quantified parts applied to the concrete journal fixtures. -/
theorem flowmo_session_segmentation_witness :
    get_flowmo_context_messages fmDBb "ft" fmMsg2 10 FLOWMO_INTERVAL_MINUTES =
      [(fmMsg2.role, fmMsg2.content)] ∧
    get_flowmo_context_messages fmDBa "ft" fmMsg1 4 FLOWMO_INTERVAL_MINUTES =
      ((get_messages fmDBa "ft").filter (fun m => (0:Int) ≤ m.created_at)).map
        (fun m => (m.role, m.content)) :=
  ⟨flowmo_session_segmentation.2.1 fmDBb "ft" fmMsg2 10
     FLOWMO_INTERVAL_MINUTES (by decide),
   flowmo_session_segmentation.2.2.1 fmDBa "ft" fmMsg1 4
     FLOWMO_INTERVAL_MINUTES 0 (by decide) (by decide) (by decide)⟩

/-! ## C6: update reconciliation -/

/-- Looking up an id after an id-preserving in-place content rewrite
finds the rewritten row. -/
theorem find?_update_memories (l : List MemoryRow) (i c : String) :
    (l.map (fun m => if m.id = i then { m with content := c } else m)).find?
      (fun m => m.id = i) =
    (l.find? (fun m => m.id = i)).map (fun m => { m with content := c }) := by
  induction l with
  | nil => rfl
  | cons a l ih =>
    by_cases h : a.id = i
    · simp [List.find?_cons, h]
    · simp [List.find?_cons, h, ih]

/-- Looking up an id after an id-preserving vector rewrite finds the
rewritten record. -/
theorem find?_update_vectors (l : List VecRec) (i c : String) (e : List Int) :
    (l.map (fun v => if v.id = i then
        { v with document := c, embedding := e } else v)).find?
      (fun v => v.id = i) =
    (l.find? (fun v => v.id = i)).map
      (fun v => { v with document := c, embedding := e }) := by
  induction l with
  | nil => rfl
  | cons a l ih =>
    by_cases h : a.id = i
    · simp [List.find?_cons, h]
    · simp [List.find?_cons, h, ih]

/-- C6: a parsed `update` instruction naming an existing memory id
with non-empty content overwrites that Memory's content in place and
re-embeds its vector, so the vector record's document equals the new
content; no new Memory row is created (the row count is unchanged),
and the cursor is then advanced. -/
theorem update_instruction_overwrites_memory_in_place
    (db : DB) (topic : Topic) (cfg : Settings) (orc : Oracles) (now : Time)
    (resp : List Char) (i c : String) (reasonJ : Json) (lastMsg : Message)
    (e : List Int) (row : MemoryRow) (vec : VecRec)
    (hlast : (get_unprocessed_messages db topic).getLast? = some lastMsg)
    (hchat : orc.chat = .ok resp)
    (hprov : truthyOpt cfg.default_chat_provider_id = true)
    (hmod : truthyOpt cfg.default_chat_model = true)
    (hemb : truthyOpt cfg.embedding_provider_id = true)
    (hembm : truthyOpt cfg.embedding_model = true)
    (hembed : orc.embed c = .ok e)
    (hres : parse_extraction_result resp =
      Json.obj [("add", Json.arr []),
                ("update", Json.arr [Json.obj
                  [("id", Json.str i), ("content", Json.str c)]]),
                ("reason", reasonJ)])
    (hi : i ≠ "") (hc : c ≠ "")
    (hrow : db.memories.find? (fun m => m.id = i) = some row)
    (hvec : db.memVectors.find? (fun v => v.id = i) = some vec) :
    extract_topic_memories db topic cfg orc now =
      .ok (mark_topic_processed
        (update_memory_vector (update_memory_content db i c) i c e)
        topic.id lastMsg.id now) ∧
    (update_memory_vector (update_memory_content db i c) i c e).memories.length
      = db.memories.length ∧
    (update_memory_vector (update_memory_content db i c) i c e).memories.find?
      (fun m => m.id = i) = some { row with content := c } ∧
    (update_memory_vector (update_memory_content db i c) i c e).memVectors.find?
      (fun v => v.id = i) = some { vec with document := c, embedding := e } ∧
    (mark_topic_processed
        (update_memory_vector (update_memory_content db i c) i c e)
        topic.id lastMsg.id now).memories =
      (update_memory_vector (update_memory_content db i c) i c e).memories ∧
    (mark_topic_processed
        (update_memory_vector (update_memory_content db i c) i c e)
        topic.id lastMsg.id now).memVectors =
      (update_memory_vector (update_memory_content db i c) i c e).memVectors := by
  refine ⟨?_, ?_, ?_, ?_, by simp [mark_topic_processed],
          by simp [mark_topic_processed]⟩
  · unfold extract_topic_memories
    simp only [hlast, hchat, hprov, hmod, hres]
    simp [Json.pyGet, pyLen, pyIter, applyAdds, applyUpdates, List.find?,
          Json.truthy, hi, hc, hembed, hemb, hembm]
  · simp [update_memory_vector, update_memory_content]
  · simp only [update_memory_vector, update_memory_content]
    rw [find?_update_memories, hrow]
    rfl
  · simp only [update_memory_vector, update_memory_content]
    rw [find?_update_vectors, hvec]
    rfl

/-- Store for the C6 witness: one memory "likes coffee" with its
vector. -/
def c6DB : DB :=
  { exDB with
      memories := [{ id := "mem1", user_id := "u1",
                     content := "likes coffee", source := "chat",
                     source_topic_id := some "t1",
                     memory_type := "preference" }],
      memVectors := [{ id := "mem1", document := "likes coffee",
                       embedding := [7], source := "chat" }] }

def c6Resp : List Char :=
  "\x7b\"add\":[],\"update\":[\x7b\"id\":\"mem1\",\"content\":\"likes tea, not coffee\"\x7d],\"reason\":\"r\"\x7d".toList

def c6Orc : Oracles := { chat := .ok c6Resp, embed := fun _ => .ok [9] }

/-- Closed witness for `update_instruction_overwrites_memory_in_place`
on a one-memory store: `m1` goes from "likes coffee" to "likes tea,
not coffee". -/
theorem update_instruction_witness :
    extract_topic_memories c6DB exTopic exCfg c6Orc 12 =
    .ok (mark_topic_processed
      (update_memory_vector
        (update_memory_content c6DB "mem1" "likes tea, not coffee")
        "mem1" "likes tea, not coffee" [9])
      "t1" "m1" 12) :=
  (update_instruction_overwrites_memory_in_place c6DB exTopic exCfg c6Orc 12
    c6Resp "mem1" "likes tea, not coffee" (Json.str "r")
    { id := "m1", topic_id := "t1", role := "user", content := "hello",
      created_at := 9 }
    [9]
    { id := "mem1", user_id := "u1", content := "likes coffee",
      source := "chat", source_topic_id := some "t1",
      memory_type := "preference" }
    { id := "mem1", document := "likes coffee", embedding := [7],
      source := "chat" }
    (by decide) rfl (by decide) (by decide) (by decide) (by decide) rfl
    (by rfl) (by decide) (by decide) (by decide) (by decide)).1

/-! ## C9: scheduler idempotence -/

/-- The store a Python run leaves behind, whether it completed or
raised. -/
def ExtractOutcome.store : ExtractOutcome → DB
  | .ok db => db
  | .raised _ db => db

theorem extract_caught_eq_store (db : DB) (t : Topic) (cfg : Settings)
    (orc : Oracles) (now : Time) :
    extract_topic_memories_caught db t cfg orc now =
      (extract_topic_memories db t cfg orc now).store := by
  unfold extract_topic_memories_caught
  cases h : extract_topic_memories db t cfg orc now <;>
    simp [ExtractOutcome.store]

/-- The add loop never mutates the store: every item is either
skipped or raises before its insert. -/
theorem applyAdds_state (db : DB) (adds : List Json) :
    applyAdds db adds = .ok db ∨ ∃ e, applyAdds db adds = .raised e db := by
  induction adds with
  | nil => exact Or.inl rfl
  | cons mem rest ih =>
    unfold applyAdds
    cases hg : mem.pyGet "content" Json.null with
    | none => exact Or.inr ⟨_, rfl⟩
    | some contentJ =>
      cases ht : contentJ.truthy with
      | true => exact Or.inr ⟨PyErr.typeError, by simp [ht]⟩
      | false => simp only [ht, Bool.not_false, if_true]; exact ih

/-- The update loop never touches topics and never changes the number
of Memory rows (it only rewrites contents and vectors). -/
theorem applyUpdates_preserved (db : DB) (cfg : Settings) (orc : Oracles)
    (ups : List Json) :
    (applyUpdates db cfg orc ups).store.topics = db.topics ∧
    (applyUpdates db cfg orc ups).store.memories.length =
      db.memories.length := by
  induction ups generalizing db with
  | nil => exact ⟨rfl, rfl⟩
  | cons mem rest ih =>
    unfold applyUpdates
    cases hgi : mem.pyGet "id" Json.null with
    | none => exact ⟨rfl, rfl⟩
    | some idJ =>
      cases hgc : mem.pyGet "content" Json.null with
      | none => exact ⟨rfl, rfl⟩
      | some contentJ =>
        cases hsk : (!idJ.truthy || !contentJ.truthy) with
        | true => simp only [hsk, if_true]; exact ih db
        | false =>
          simp only [hsk, Bool.false_eq_true, if_false]
          split <;> try exact ⟨rfl, rfl⟩
          all_goals try (split <;> try split)
          all_goals
            refine ⟨(ih _).1.trans ?_, (ih _).2.trans ?_⟩ <;>
              simp [update_memory_vector, update_memory_content]

/-- Marking one topic leaves every row with a different id unchanged
and does not touch the memories table. -/
theorem mark_preserved (db : DB) (topic_id lid : String) (now : Time)
    (tid : String) (h : tid ≠ topic_id) :
    (mark_topic_processed db topic_id lid now).topics.filter
      (fun x => x.id = tid) = db.topics.filter (fun x => x.id = tid) ∧
    (mark_topic_processed db topic_id lid now).memories.length =
      db.memories.length := by
  refine ⟨?_, by simp [mark_topic_processed]⟩
  simp only [mark_topic_processed]
  induction db.topics with
  | nil => rfl
  | cons a ts ih =>
    by_cases ha : a.id = topic_id
    · have hne : ¬ (a.id = tid) := fun hh => h (by rw [← hh]; exact ha)
      simp [List.filter_cons, ha, hne, Ne.symm h, h, ih]
    · by_cases hb : a.id = tid <;>
        simp [List.filter_cons, ha, hb, Ne.symm h, h, ih]

/-- Processing one topic preserves every other topic's rows and the
Memory row count. -/
theorem extract_store_preserved (db : DB) (t : Topic) (cfg : Settings)
    (orc : Oracles) (now : Time) (tid : String) (hne : tid ≠ t.id) :
    ((extract_topic_memories db t cfg orc now).store.topics.filter
      (fun x => x.id = tid) = db.topics.filter (fun x => x.id = tid)) ∧
    (extract_topic_memories db t cfg orc now).store.memories.length =
      db.memories.length := by
  unfold extract_topic_memories
  cases hg : (get_unprocessed_messages db t).getLast? with
  | none => exact ⟨rfl, rfl⟩
  | some lastMsg =>
    cases hs : (truthyOpt cfg.default_chat_provider_id &&
        truthyOpt cfg.default_chat_model) with
    | false => exact ⟨rfl, rfl⟩
    | true =>
      simp only [hs, Bool.not_true, Bool.false_eq_true, if_false]
      cases hc : orc.chat with
      | error err => exact ⟨rfl, rfl⟩
      | ok response =>
        dsimp only
        cases hadd : (parse_extraction_result response).pyGet "add"
            (Json.arr []) with
        | none => exact ⟨rfl, rfl⟩
        | some addsJ =>
          cases hupd : (parse_extraction_result response).pyGet "update"
              (Json.arr []) with
          | none => exact ⟨rfl, rfl⟩
          | some updatesJ =>
            dsimp only
            cases hla : pyLen addsJ with
            | none => exact ⟨rfl, rfl⟩
            | some n1 =>
              cases hlu : pyLen updatesJ with
              | none => exact ⟨rfl, rfl⟩
              | some n2 =>
                dsimp only
                cases hia : pyIter addsJ with
                | none => exact ⟨rfl, rfl⟩
                | some adds =>
                  dsimp only
                  rcases applyAdds_state db adds with hA | ⟨e, hA⟩
                  · rw [hA]
                    dsimp only
                    cases hiu : pyIter updatesJ with
                    | none => exact ⟨rfl, rfl⟩
                    | some updates =>
                      dsimp only
                      have hU := applyUpdates_preserved db cfg orc updates
                      cases hu : applyUpdates db cfg orc updates with
                      | raised e2 db2 =>
                        dsimp only
                        rw [hu] at hU
                        simp only [ExtractOutcome.store] at hU ⊢
                        exact ⟨by rw [hU.1], hU.2⟩
                      | ok db2 =>
                        dsimp only
                        rw [hu] at hU
                        simp only [ExtractOutcome.store] at hU ⊢
                        have hm := mark_preserved db2 t.id lastMsg.id now tid hne
                        refine ⟨?_, ?_⟩
                        · exact hm.1.trans (by rw [hU.1])
                        · exact hm.2.trans hU.2
                  · rw [hA]; exact ⟨rfl, rfl⟩

/-- C9 counterexample: with no new messages between two scheduler
runs, the second run is not a no-op for every topic.  The fixture
topic (last active at 9, 2-minute threshold) is not yet eligible at
`now = 11`, so the first run completes without touching anything; at
`now = 12` the quiet period has elapsed, the topic is selected, and
the second run advances its cursor from `none` to `some "m1"` even
though no message arrived between the runs. -/
theorem second_cycle_counterexample :
    check_and_extract exDB exCfg (fun _ => exOrcEmpty) 11 = exDB ∧
    exDB.topics.map (fun t => t.last_processed_message_id) = [none] ∧
    (check_and_extract (check_and_extract exDB exCfg (fun _ => exOrcEmpty) 11)
        exCfg (fun _ => exOrcEmpty) 12).topics.map
      (fun t => t.last_processed_message_id) = [some "m1"] ∧
    (check_and_extract exDB exCfg (fun _ => exOrcEmpty) 11).messages =
      exDB.messages :=
  ⟨by decide, by decide, by decide, by decide⟩

/-- C9 (amended): the second run is a no-op for every topic the first
run processed — such a topic has `last_active_at ≤
memory_processed_at`, fails the eligibility predicate at every
threshold, and keeps all its rows unchanged — and no run ever changes
the number of Memory rows; but a topic the first run skipped only
because its quiet period had not yet elapsed can become eligible and
have its cursor advanced by the second run. -/
theorem second_cycle_noop_for_processed_topics
    (db : DB) (cfg : Settings) (orcs : String → Oracles) (now : Time)
    (tid : String)
    (h : ∀ t ∈ db.topics, t.id = tid →
      ∃ a m, t.last_active_at = some a ∧ t.memory_processed_at = some m ∧
        a ≤ m) :
    ((check_and_extract db cfg orcs now).topics.filter
      (fun t => t.id = tid) = db.topics.filter (fun t => t.id = tid)) ∧
    (check_and_extract db cfg orcs now).memories.length =
      db.memories.length := by
  unfold check_and_extract
  by_cases he : pyLower cfg.memory_extraction_enabled = "true"
  case neg => rw [if_pos (by simp [he])]; exact ⟨rfl, rfl⟩
  case pos =>
    rw [if_neg (by simp [he])]
    have hsel : ∀ t ∈ scheduler_selected_topics db cfg now, tid ≠ t.id := by
      intro t htmem
      unfold scheduler_selected_topics at htmem
      rw [if_neg (by simp [he])] at htmem
      unfold find_topics_need_processing at htmem
      rw [List.mem_filter] at htmem
      obtain ⟨hmem, hpred⟩ := htmem
      intro heq
      obtain ⟨a, m, ha, hm, ham⟩ := h t hmem heq.symm
      unfold topic_needs_processing at hpred
      rw [ha, hm] at hpred
      simp only [Bool.and_eq_true, decide_eq_true_eq] at hpred
      exact absurd hpred.2 (not_lt.mpr ham)
    generalize scheduler_selected_topics db cfg now = ts at hsel
    clear h
    induction ts generalizing db with
    | nil => exact ⟨rfl, rfl⟩
    | cons t ts ih =>
      rw [List.foldl_cons]
      have hstep := extract_store_preserved db t cfg (orcs t.id) now tid
        (hsel t (by simp))
      rw [← extract_caught_eq_store] at hstep
      have htail := ih (extract_topic_memories_caught db t cfg (orcs t.id) now)
        (fun u hu => hsel u (List.mem_cons_of_mem _ hu))
      exact ⟨htail.1.trans hstep.1, htail.2.trans hstep.2⟩

/-- Closed witness for `second_cycle_noop_for_processed_topics`: a
topic already stamped at 10 (last active 9) is untouched by a run at
12. -/
theorem second_cycle_noop_witness :
    ((check_and_extract
        { exDB with topics := [{ exTopic with
            memory_processed_at := some 10,
            last_processed_message_id := some "m1" }] }
        exCfg (fun _ => exOrcEmpty) 12).topics.filter
      (fun t => t.id = "t1") =
      ({ exDB with topics := [{ exTopic with
            memory_processed_at := some 10,
            last_processed_message_id := some "m1" }] } : DB).topics.filter
        (fun t => t.id = "t1")) ∧
    (check_and_extract
        { exDB with topics := [{ exTopic with
            memory_processed_at := some 10,
            last_processed_message_id := some "m1" }] }
        exCfg (fun _ => exOrcEmpty) 12).memories.length =
      ({ exDB with topics := [{ exTopic with
            memory_processed_at := some 10,
            last_processed_message_id := some "m1" }] } : DB).memories.length :=
  second_cycle_noop_for_processed_topics _ exCfg (fun _ => exOrcEmpty) 12 "t1"
    (by intro t ht heq
        simp only [List.mem_singleton] at ht
        subst ht
        exact ⟨9, 10, rfl, rfl, by norm_num⟩)

/-! ## C5: the Retrieval Ranker returns the k globally smallest
distances.  The proof works at the level of distance values: counting
how many entries are at most any given value characterises each
position of a sorted list. -/

/-- Ascending sort of distance values. -/
def qsort (l : List ℚ) : List ℚ := List.insertionSort (· ≤ ·) l

theorem qsort_sorted (l : List ℚ) : List.Sorted (· ≤ ·) (qsort l) :=
  List.sorted_insertionSort _ l

theorem qsort_perm (l : List ℚ) : (qsort l).Perm l :=
  List.perm_insertionSort _ l

/-- How many entries of `l` are at most `x`. -/
def cntLE (x : ℚ) (l : List ℚ) : Nat := l.countP (fun y => decide (y ≤ x))

theorem cntLE_perm (x : ℚ) {l1 l2 : List ℚ} (h : l1.Perm l2) :
    cntLE x l1 = cntLE x l2 := h.countP_eq _

theorem cntLE_zero_of_head {a x : ℚ} {t : List ℚ}
    (hall : ∀ b ∈ t, a ≤ b) (hax : ¬ a ≤ x) :
    cntLE x t = 0 := by
  unfold cntLE
  rw [List.countP_eq_zero]
  intro y hy
  simp only [decide_eq_true_eq]
  exact fun hyx => hax (le_trans (hall y hy) hyx)

/-- On a sorted list the entries at most `x` form a prefix, so a
truncation caps the count. -/
theorem cntLE_take_sorted (l : List ℚ) :
    List.Sorted (· ≤ ·) l → ∀ (x : ℚ) (m : Nat),
      cntLE x (l.take m) = min m (cntLE x l) := by
  induction l with
  | nil => intro _ x m; simp [cntLE]
  | cons a t ih =>
    intro hs x m
    have hall := (List.sorted_cons.mp hs).1
    have hst := (List.sorted_cons.mp hs).2
    cases m with
    | zero => simp [cntLE]
    | succ m =>
      rw [List.take_succ_cons]
      unfold cntLE
      rw [List.countP_cons, List.countP_cons]
      have iht := ih hst x m
      unfold cntLE at iht
      rw [iht]
      by_cases hax : a ≤ x
      · simp [hax]
        omega
      · have h0 : t.countP (fun y => decide (y ≤ x)) = 0 := by
          have := cntLE_zero_of_head hall hax
          unfold cntLE at this
          exact this
        simp [hax, h0]

/-- Position `i` of a sorted list is at most `x` iff more than `i`
entries are at most `x`. -/
theorem sorted_getElem_le_iff (l : List ℚ) :
    List.Sorted (· ≤ ·) l → ∀ (i : Nat) (hi : i < l.length) (x : ℚ),
      (l[i] ≤ x ↔ i < cntLE x l) := by
  induction l with
  | nil => intro _ i hi x; simp at hi
  | cons a t ih =>
    intro hs i hi x
    have hall := (List.sorted_cons.mp hs).1
    have hst := (List.sorted_cons.mp hs).2
    unfold cntLE
    rw [List.countP_cons]
    cases i with
    | zero =>
      rw [List.getElem_cons_zero]
      by_cases hax : a ≤ x
      · simp [hax]
      · have h0 : t.countP (fun y => decide (y ≤ x)) = 0 := by
          have := cntLE_zero_of_head hall hax
          unfold cntLE at this
          exact this
        simp [hax, h0]
    | succ i =>
      rw [List.getElem_cons_succ]
      have hi' : i < t.length := by simpa using hi
      have iht := ih hst i hi' x
      unfold cntLE at iht
      by_cases hax : a ≤ x
      · rw [iht]
        simp [hax]
      · have h0 : t.countP (fun y => decide (y ≤ x)) = 0 := by
          have := cntLE_zero_of_head hall hax
          unfold cntLE at this
          exact this
        have hx : ¬ t[i] ≤ x :=
          fun hyx => hax (le_trans (hall _ (List.getElem_mem hi')) hyx)
        simp [hax, h0, hx]

/-- Over-fetching `n ≥ k` entries from each of two sorted collections
and globally re-sorting recovers the `k` smallest of the union. -/
theorem take_qsort_merge (X Y : List ℚ) (k n : Nat) (hk : k ≤ n) :
    (qsort ((qsort X).take n ++ (qsort Y).take n)).take k =
      (qsort (X ++ Y)).take k := by
  have hcntC : ∀ x, cntLE x ((qsort X).take n ++ (qsort Y).take n) =
      min n (cntLE x X) + min n (cntLE x Y) := by
    intro x
    have e1 : cntLE x ((qsort X).take n ++ (qsort Y).take n) =
        cntLE x ((qsort X).take n) + cntLE x ((qsort Y).take n) := by
      unfold cntLE
      exact List.countP_append _ _ _
    rw [e1, cntLE_take_sorted (qsort X) (qsort_sorted X) x n,
        cntLE_take_sorted (qsort Y) (qsort_sorted Y) x n,
        cntLE_perm x (qsort_perm X), cntLE_perm x (qsort_perm Y)]
  have hcntAll : ∀ x, cntLE x (X ++ Y) = cntLE x X + cntLE x Y := by
    intro x
    unfold cntLE
    exact List.countP_append _ _ _
  have hlenC : ((qsort X).take n ++ (qsort Y).take n).length =
      min n X.length + min n Y.length := by
    rw [List.length_append, List.length_take, List.length_take,
        (qsort_perm X).length_eq, (qsort_perm Y).length_eq]
  apply List.ext_getElem
  · rw [List.length_take, List.length_take,
        (qsort_perm ((qsort X).take n ++ (qsort Y).take n)).length_eq,
        (qsort_perm (X ++ Y)).length_eq, hlenC, List.length_append]
    try simp only [inf_eq_min]
    omega
  · intro i h1 h2
    have hik : i < k := by
      rw [List.length_take] at h1
      try simp only [inf_eq_min] at h1
      omega
    have hb1 : i < (qsort ((qsort X).take n ++ (qsort Y).take n)).length := by
      rw [List.length_take] at h1
      exact lt_of_lt_of_le h1 inf_le_right
    have hb2 : i < (qsort (X ++ Y)).length := by
      rw [List.length_take] at h2
      exact lt_of_lt_of_le h2 inf_le_right
    rw [List.getElem_take, List.getElem_take]
    have hiff1 := sorted_getElem_le_iff _
      (qsort_sorted ((qsort X).take n ++ (qsort Y).take n)) i hb1
    have hiff2 := sorted_getElem_le_iff _ (qsort_sorted (X ++ Y)) i hb2
    have htrans : ∀ x : ℚ,
        (i < cntLE x (qsort ((qsort X).take n ++ (qsort Y).take n)) ↔
         i < cntLE x (qsort (X ++ Y))) := by
      intro x
      rw [cntLE_perm x (qsort_perm _), cntLE_perm x (qsort_perm _),
          hcntC x, hcntAll x]
      omega
    apply le_antisymm
    · exact (hiff1 _).mpr ((htrans _).mpr ((hiff2 _).mp le_rfl))
    · exact (hiff2 _).mpr ((htrans _).mp ((hiff1 _).mp le_rfl))

/-- With no exclusion list the formatting loop returns its input
whenever the requested count covers it. -/
theorem collectHits_eq_self (hits : List Hit) :
    ∀ (k : Nat), hits.length ≤ k → collectHits hits none k = hits := by
  induction hits with
  | nil => intro k _; cases k <;> rfl
  | cons a rest ih =>
    intro k hk
    unfold collectHits
    rw [if_neg (by simp)]
    simp only [List.length_cons] at hk
    by_cases h1 : k ≤ 1
    · have hk1 : k = 1 := by omega
      subst hk1
      have hrest : rest = [] := List.eq_nil_of_length_eq_zero (by omega)
      rw [if_pos le_rfl, hrest]
    · rw [if_neg h1, ih (k - 1) (by omega)]

/-- `memory.search_memories` with no exclusions is the `k` nearest in
ascending order. -/
theorem search_memories_eq_take (col : List Hit) (k : Nat) :
    search_memories col k none = (List.insertionSort hitLE col).take k := by
  unfold search_memories chromaQuery
  dsimp only
  rw [Nat.add_zero]
  exact collectHits_eq_self _ k (by rw [List.length_take]; exact inf_le_left)

/-- Sorting hit records by distance and projecting to distances is
sorting the distances. -/
theorem map_dist_insertionSort (l : List Hit) :
    (List.insertionSort hitLE l).map Hit.distance =
      qsort (l.map Hit.distance) := by
  apply List.eq_of_perm_of_sorted (r := (· ≤ ·))
  · exact ((List.perm_insertionSort hitLE l).map Hit.distance).trans
      (qsort_perm (l.map Hit.distance)).symm
  · exact List.Pairwise.map _ (fun a b h => h)
      (List.sorted_insertionSort hitLE l)
  · exact qsort_sorted _

/-- C5: the combined retrieval queries each collection for `2k`
candidates, concatenates, sorts ascending by distance and truncates
to `k`, so its distances are the `k` globally smallest over both
collections; in particular memory distances `[0.1, 0.4]` and journal
distances `[0.2, 0.3]` with `k = 2` return `[0.1, 0.2]`. -/
theorem retrieval_ranker_global_topk :
    (∀ (memCol flowCol : List Hit) (k : Nat),
      (search_memories_and_flowmos memCol flowCol k).map Hit.distance =
        (qsort ((memCol.map Hit.distance) ++
          (flowCol.map Hit.distance))).take k) ∧
    (search_memories_and_flowmos
        [{ id := "m1", content := "c1", source := "chat",
           distance := 1/10 },
         { id := "m2", content := "c2", source := "chat",
           distance := 4/10 }]
        [{ id := "f1", content := "d1", source := "flowmo",
           distance := 2/10 },
         { id := "f2", content := "d2", source := "flowmo",
           distance := 3/10 }]
        2).map Hit.distance = [1/10, 2/10] := by
  constructor
  · intro A B k
    unfold search_memories_and_flowmos
    rw [search_memories_eq_take]
    have hflowdist : (search_flowmos B (k * 2)).map Hit.distance =
        ((List.insertionSort hitLE B).take (k * 2)).map Hit.distance := by
      unfold search_flowmos chromaQuery
      rw [List.map_map]
      rfl
    rw [List.map_take, map_dist_insertionSort, List.map_append, hflowdist,
        List.map_take, List.map_take, map_dist_insertionSort,
        map_dist_insertionSort]
    exact take_qsort_merge _ _ k (k * 2) (by omega)
  · norm_num [search_memories_and_flowmos, search_memories, search_flowmos,
      chromaQuery, collectHits, List.insertionSort, List.orderedInsert, hitLE]

end SecondMe
